import Mathlib

/-!
# Verification of the store-availability engine (`server/utils/helper.py`)

Shallow embedding of the availability computation engine:

* UTC instants (`datetime` values) are modelled as integers counting seconds
  since the Unix epoch (1970-01-01 00:00:00 UTC, a Thursday).  Comparison of
  timezone-aware datetimes in Python compares the underlying instants, which
  is exactly integer comparison in this model.
* Durations reported in minutes (`timedelta.total_seconds() / 60.0`) become
  exact rationals (`ℚ`); the Python floats are IEEE doubles, modelled here by
  exact rational arithmetic.
* A time-of-day string `"HH:MM:SS"` (parsed by `datetime.strptime` with
  format `"%H:%M:%S"`) is modelled by its second-of-day value, a natural
  number below 86400 (e.g. `"09:00:00"` ↦ 32400).
* A `pytz` timezone object is modelled abstractly as a function `ℤ → ℤ`
  sending local wall-clock seconds (a naive local datetime) to UTC seconds:
  `tz.localize(naive).astimezone(UTC)`.  For the UTC timezone this function
  is the identity.
* Python dictionaries keyed by store id are modelled as their lookup
  functions `String → β`.
-/

/-- Embedding of `StoreStatusEnum` from `server/models/models.py`: `inactive = 0`,
`active = 1`. -/
inductive StoreStatusEnum where
  | inactive
  | active
deriving DecidableEq, Repr

/-- Embedding of `StoreStatus` from `server/models/models.py`: one polled status
observation.  `timestamp_utc` is seconds since the epoch. -/
structure StoreStatus where
  store_id : String
  timestamp_utc : ℤ
  status : StoreStatusEnum
deriving DecidableEq, Repr

/-- Embedding of `BusinessHours` from `server/models/models.py`.  `dayOfWeek` uses the
Python `date.weekday()` convention (0 = Monday, 6 = Sunday); the two local
times are second-of-day values standing for the `"HH:MM:SS"` strings. -/
structure BusinessHours where
  store_id : String
  dayOfWeek : ℕ
  start_time_local : ℕ
  end_time_local : ℕ
deriving DecidableEq, Repr

/-- A reconstructed status interval `(start, end, status)` as produced by
`interpolate_status`: a triple of two UTC instants and a status. -/
abbrev StatusInterval := ℤ × ℤ × StoreStatusEnum

/-- The pair loop of `interpolate_status` (`for i in range(len(records) - 1)`):
for each consecutive pair of observations, skip it when it lies entirely
outside the window (`t2 < start or t1 > end`), otherwise emit the clipped
interval `(max(t1, start), min(t2, end), s1)`.  `stop` is the Python
parameter `end` (a Lean keyword). -/
def interp_pairs (records : List StoreStatus) (start stop : ℤ) :
    List StatusInterval :=
  (records.zip records.tail).filterMap (fun p =>
    if p.2.timestamp_utc < start ∨ stop < p.1.timestamp_utc then none
    else some (max p.1.timestamp_utc start, min p.2.timestamp_utc stop,
      p.1.status))

/-- Embedding of `interpolate_status(records, start, end)` from
`server/utils/helper.py`:
with no records the whole window is a single inactive interval; otherwise the
clipped consecutive-pair intervals, followed by a trailing interval
`(max(last_t, start), end, last_s)` when the last observation is before the
window's end. -/
def interpolate_status (records : List StoreStatus) (start stop : ℤ) :
    List StatusInterval :=
  match records with
  | [] => [(start, stop, StoreStatusEnum.inactive)]
  | r :: rs =>
    let intervals := interp_pairs (r :: rs) start stop
    let lastRec := (r :: rs).getLast (List.cons_ne_nil r rs)
    if lastRec.timestamp_utc < stop then
      intervals ++ [(max lastRec.timestamp_utc start, stop, lastRec.status)]
    else intervals

/-- Embedding of `overlap_minutes(start1, end1, start2, end2)` from
`server/utils/helper.py`: `0` when `latest_start >= earliest_end`, otherwise
`(earliest_end - latest_start).total_seconds() / 60.0`. -/
def overlap_minutes (start1 end1 start2 end2 : ℤ) : ℚ :=
  let latest_start := max start1 start2
  let earliest_end := min end1 end2
  if earliest_end ≤ latest_start then 0
  else ((earliest_end - latest_start : ℤ) : ℚ) / 60

/-- The values taken by `day_cursor` in `process_one_store`'s
`while day_cursor < now_utc: ...; day_cursor += timedelta(days=1)` loop:
`start, start + 1 day, start + 2 days, …`, all strictly below `now_utc`.
The iteration count `⌈(now_utc - start) / 86400⌉` (clamped at 0) makes the
enumeration explicit. -/
def whileDays (start now_utc : ℤ) : List ℤ :=
  (List.range (((now_utc - start).toNat + 86399) / 86400)).map
    (fun k => start + 86400 * (k : ℤ))

/-- Python `datetime.weekday()` of a UTC instant: day number since the epoch
(floor division, the epoch day was a Thursday = 3) shifted so that
0 = Monday. -/
def weekday (t : ℤ) : ℤ := (t.fdiv 86400 + 3).emod 7

/-- Midnight (as local wall-clock seconds) of the calendar date containing
`t`: the effect of `datetime.combine(date, time)` /
`.replace(year=…, month=…, day=…)` keeping the date part only. -/
def dateStart (t : ℤ) : ℤ := 86400 * t.fdiv 86400

/-- The concrete UTC business windows one rule produces inside
`process_one_store`'s day loop: for each `day_cursor` value whose weekday
matches `bh.dayOfWeek`, combine the cursor's date with the rule's local
start/end times, localize via `tz` and convert to UTC
(`tz.localize(...).astimezone(UTC)`). -/
def rule_windows (tz : ℤ → ℤ) (bh : BusinessHours) (start now_utc : ℤ) :
    List (ℤ × ℤ) :=
  (whileDays start now_utc).filterMap (fun day_cursor =>
    if weekday day_cursor = (bh.dayOfWeek : ℤ) then
      some (tz (dateStart day_cursor + (bh.start_time_local : ℤ)),
        tz (dateStart day_cursor + (bh.end_time_local : ℤ)))
    else none)

/-- The innermost accumulation step of `process_one_store`: compute
`overlap_minutes` of one status interval against one business window and,
when positive, add it to `total_up` or `total_down` according to the
interval's status. -/
def add_overlap (w : ℤ × ℤ) (acc : ℚ × ℚ) (iv : StatusInterval) : ℚ × ℚ :=
  let minutes := overlap_minutes iv.1 iv.2.1 w.1 w.2
  if 0 < minutes then
    if iv.2.2 = StoreStatusEnum.active then (acc.1 + minutes, acc.2)
    else (acc.1, acc.2 + minutes)
  else acc

/-- The `(total_up, total_down)` accumulated by `process_one_store` for one
window: the nested loops over business-hour rules, matching day cursors
(business windows) and status intervals. -/
def accumulate_minutes (tz : ℤ → ℤ) (business_hours : List BusinessHours)
    (intervals : List StatusInterval) (start now_utc : ℤ) : ℚ × ℚ :=
  business_hours.foldl (fun acc bh =>
    (rule_windows tz bh start now_utc).foldl (fun acc w =>
      intervals.foldl (add_overlap w) acc) acc) (0, 0)

/-- Python `round(x, 2)`: round to two decimal places, ties to even
(modelled on exact rationals). -/
def round2 (q : ℚ) : ℚ :=
  let n : ℤ := ⌊100 * q⌋
  let r : ℚ := 100 * q - (n : ℚ)
  let k : ℤ :=
    if r < 1 / 2 then n
    else if 1 / 2 < r then n + 1
    else if n % 2 = 0 then n else n + 1
  (k : ℚ) / 100

/-- The per-store output record of `process_one_store` (the dictionary
`{"store_id": …, "uptime_last_hour": …, …}`). -/
structure StoreReport where
  store_id : String
  uptime_last_hour : ℚ
  downtime_last_hour : ℚ
  uptime_last_day : ℚ
  downtime_last_day : ℚ
  uptime_last_week : ℚ
  downtime_last_week : ℚ
deriving DecidableEq, Repr

/-- Embedding of `process_one_store` from `server/utils/helper.py`: for each
of the three
trailing windows (`hour = now - 1h`, `day = now - 24h`, `week = now - 7d`,
all ending at `now_utc`) reconstruct the status timeline, accumulate up/down
minutes against the materialized business windows, and report raw minutes
for the hour window and hours (`/ 60`) for the day and week windows, all
rounded to two decimals.  `tz` is the localization function of
`pytz.timezone(timezone_str)`. -/
def process_one_store (store_id : String) (now_utc : ℤ) (tz : ℤ → ℤ)
    (business_hours : List BusinessHours)
    (status_records : List StoreStatus) : StoreReport :=
  let winTotals := fun (start : ℤ) =>
    accumulate_minutes tz business_hours
      (interpolate_status status_records start now_utc) start now_utc
  let h := winTotals (now_utc - 3600)
  let d := winTotals (now_utc - 86400)
  let w := winTotals (now_utc - 604800)
  { store_id := store_id
    uptime_last_hour := round2 h.1
    downtime_last_hour := round2 h.2
    uptime_last_day := round2 (d.1 / 60)
    downtime_last_day := round2 (d.2 / 60)
    uptime_last_week := round2 (w.1 / 60)
    downtime_last_week := round2 (w.2 / 60) }

/-- Predicate: `t` lies in (the half-open reading of) one of the reconstructed
intervals. -/
def covers (L : List StatusInterval) (t : ℤ) : Prop :=
  ∃ iv ∈ L, iv.1 ≤ t ∧ t < iv.2.1

instance (L : List StatusInterval) (t : ℤ) : Decidable (covers L t) := by
  unfold covers
  infer_instance

/-- Integer-second core of `overlap_minutes` (proof helper). -/
def olapZ (s1 e1 s2 e2 : ℤ) : ℤ := max 0 (min e1 e2 - max s1 s2)


/-! ## Batch orchestration (`process_stores_in_batches` and the fetchers)

The MongoDB collections are modelled as a snapshot: three lists of
documents in collection order.  A query cursor with an `$in` filter is the
collection list filtered to the batch; Python dictionaries keyed by store
id are modelled as their lookup functions. -/

/-- A document of the `stores` collection (the projection used by
`get_batch_timezones`: `store_id` and the optional `timezone_str`). -/
structure StoreDoc where
  store_id : String
  timezone_str : Option String
deriving DecidableEq, Repr

/-- A snapshot of the MongoDB database. -/
structure DB where
  stores : List StoreDoc
  business_hours : List BusinessHours
  store_status : List StoreStatus
deriving DecidableEq, Repr

/-- Embedding of `get_batch_timezones(store_ids)` from
`server/utils/helper.py`: every
store starts at the default `"America/Chicago"`; each cursor document
carrying a `timezone_str` overwrites its store's entry. -/
def get_batch_timezones (db : DB) (store_ids : List String) :
    String → String :=
  (db.stores.filter (fun d => decide (d.store_id ∈ store_ids))).foldl
    (fun tz_map doc =>
      match doc.timezone_str with
      | some t => Function.update tz_map doc.store_id t
      | none => tz_map)
    (fun _ => "America/Chicago")

/-- The 24/7 default fill of `get_batch_business_hours`: one
00:00:00–23:59:59 rule for each day of the week. -/
def default_business_hours (store_id : String) : List BusinessHours :=
  (List.range 7).map (fun d => ⟨store_id, d, 0, 86399⟩)

/-- Embedding of `get_batch_business_hours(store_ids)` from
`server/utils/helper.py`:
collect each store's rule documents from the cursor (in collection
order), then replace every empty entry of the batch by the 24/7
default. -/
def get_batch_business_hours (db : DB) (store_ids : List String) :
    String → List BusinessHours :=
  let bh_map :=
    (db.business_hours.filter
        (fun r => decide (r.store_id ∈ store_ids))).foldl
      (fun (m : String → List BusinessHours) r =>
        Function.update m r.store_id (m r.store_id ++ [r]))
      (fun _ : String => ([] : List BusinessHours))
  fun store_id =>
    if store_id ∈ store_ids ∧ bh_map store_id = [] then
      default_business_hours store_id
    else bh_map store_id

/-- Embedding of `get_batch_status_records(store_ids, start, end)` from
`server/utils/helper.py`.  The `find` with the range filter and the
`(store_id, timestamp_utc)` sort runs inside MongoDB; grouping the sorted
cursor into `record_map` yields, for each store of the batch, its status
documents with `start ≤ timestamp_utc ≤ end` ordered by timestamp
(stably, so equal timestamps keep collection order), which is what this
per-key model returns directly. -/
def get_batch_status_records (db : DB) (store_ids : List String)
    (start stop : ℤ) : String → List StoreStatus :=
  fun store_id =>
    if store_id ∈ store_ids then
      List.insertionSort (fun a b => a.timestamp_utc ≤ b.timestamp_utc)
        (db.store_status.filter (fun r => decide (r.store_id = store_id) &&
          decide (start ≤ r.timestamp_utc) &&
          decide (r.timestamp_utc ≤ stop)))
    else []

/-- The body of `process_stores_in_batches`'s batch loop: bulk-fetch the
batch's timezones, business hours and status records (restricted to
`[window_start, now_utc]` with `window_start = now_utc - 7 days`), then
run `process_one_store` for every store of the batch.  `tzInterp` models
`pytz.timezone`: it sends a timezone identifier to its localization
function. -/
def process_batch (tzInterp : String → ℤ → ℤ) (db : DB) (now_utc : ℤ)
    (batch : List String) : List StoreReport :=
  let window_start := now_utc - 604800
  let tz_map := get_batch_timezones db batch
  let bh_map := get_batch_business_hours db batch
  let status_map := get_batch_status_records db batch window_start now_utc
  batch.map (fun store_id =>
    process_one_store store_id now_utc (tzInterp (tz_map store_id))
      (bh_map store_id) (status_map store_id))

/-- Embedding of `process_stores_in_batches(now_utc, batch_size)` from
`server/utils/helper.py`: slice the full store population into
consecutive batches of `batch_size` (`math.ceil(n / b)` batches, here
`(n + b - 1) / b` in natural division, equal for `b ≥ 1`), and run the
batch loop over every batch in order, concatenating the per-store
results.  After the loop the code divides the total elapsed time by
`len(results)`, which raises `ZeroDivisionError` when no store was
processed, modelled by the `Except.error` branch. -/
def process_stores_in_batches (tzInterp : String → ℤ → ℤ) (db : DB)
    (now_utc : ℤ) (batch_size : ℕ) : Except String (List StoreReport) :=
  let all_stores := db.stores.map (fun d => d.store_id)
  let num_batches := (all_stores.length + batch_size - 1) / batch_size
  let results := (List.range num_batches).flatMap (fun batch_num =>
    process_batch tzInterp db now_utc
      ((all_stores.drop (batch_num * batch_size)).take batch_size))
  if results.length = 0 then Except.error "ZeroDivisionError"
  else Except.ok results

/-! ### Batch-independent characterization of the fetched values -/

/-- The timezone a batch fetch yields for one store, independently of the
batch: the last `timezone_str` among the store's documents, or the
default. -/
def store_timezone (db : DB) (s : String) : String :=
  (db.stores.filter (fun d => decide (d.store_id = s))).foldl
    (fun acc d =>
      match d.timezone_str with
      | some t => t
      | none => acc)
    "America/Chicago"

/-- The business-hour rules a batch fetch yields for one store: its rule
documents in collection order, or the 24/7 default when there are none. -/
def store_rules (db : DB) (s : String) : List BusinessHours :=
  let hours := db.business_hours.filter (fun r => decide (r.store_id = s))
  if hours = [] then default_business_hours s else hours

/-- The status records a batch fetch yields for one store: its documents
in the range, sorted by timestamp. -/
def store_observations (db : DB) (start stop : ℤ) (s : String) :
    List StoreStatus :=
  List.insertionSort (fun a b => a.timestamp_utc ≤ b.timestamp_utc)
    (db.store_status.filter (fun r => decide (r.store_id = s) &&
      decide (start ≤ r.timestamp_utc) && decide (r.timestamp_utc ≤ stop)))

/-- The per-store record the orchestrator computes, independently of
batching. -/
def store_record (tzInterp : String → ℤ → ℤ) (db : DB) (now_utc : ℤ)
    (s : String) : StoreReport :=
  process_one_store s now_utc (tzInterp (store_timezone db s))
    (store_rules db s)
    (store_observations db (now_utc - 604800) now_utc s)

/-! ## Basic properties of `overlap_minutes` -/

lemma overlap_minutes_eq (s1 e1 s2 e2 : ℤ) :
    overlap_minutes s1 e1 s2 e2 =
      ((max 0 (min e1 e2 - max s1 s2) : ℤ) : ℚ) / 60 := by
  unfold overlap_minutes
  by_cases h : min e1 e2 ≤ max s1 s2
  · rw [if_pos h, max_eq_left (sub_nonpos.mpr h)]
    norm_num
  · rw [if_neg h, max_eq_right (sub_nonneg.mpr (le_of_not_le h))]

lemma overlap_minutes_nonneg (s1 e1 s2 e2 : ℤ) :
    0 ≤ overlap_minutes s1 e1 s2 e2 := by
  rw [overlap_minutes_eq]
  apply div_nonneg _ (by norm_num)
  exact_mod_cast le_max_left 0 _

lemma round2_zero : round2 0 = 0 := by norm_num [round2]

/-! ## Zero accumulation helper -/

lemma foldl_add_overlap_zero (w : ℤ × ℤ) (L : List StatusInterval)
    (hw : ∀ iv ∈ L, overlap_minutes iv.1 iv.2.1 w.1 w.2 = 0) :
    ∀ acc : ℚ × ℚ, L.foldl (add_overlap w) acc = acc := by
  induction L with
  | nil => intro acc; rfl
  | cons iv rest ih =>
    intro acc
    rw [List.foldl_cons]
    have hstep : add_overlap w acc iv = acc := by
      unfold add_overlap
      rw [hw iv (List.mem_cons_self iv rest)]
      simp
    rw [hstep]
    exact ih (fun i hi => hw i (List.mem_cons_of_mem iv hi)) acc

/-- If every status interval has zero overlap with every materialized
business window, the accumulated totals are `(0, 0)`. -/
lemma accumulate_minutes_all_zero (tz : ℤ → ℤ)
    (bhs : List BusinessHours) (L : List StatusInterval) (start now_utc : ℤ)
    (h : ∀ bh ∈ bhs, ∀ w ∈ rule_windows tz bh start now_utc,
      ∀ iv ∈ L, overlap_minutes iv.1 iv.2.1 w.1 w.2 = 0) :
    accumulate_minutes tz bhs L start now_utc = (0, 0) := by
  have hmid : ∀ (ws : List (ℤ × ℤ)),
      (∀ w ∈ ws, ∀ iv ∈ L, overlap_minutes iv.1 iv.2.1 w.1 w.2 = 0) →
      ∀ acc : ℚ × ℚ,
        ws.foldl (fun acc w => L.foldl (add_overlap w) acc) acc = acc := by
    intro ws
    induction ws with
    | nil => intro _ acc; rfl
    | cons w rest ih =>
      intro hws acc
      rw [List.foldl_cons,
        foldl_add_overlap_zero w L (hws w (List.mem_cons_self w rest))]
      exact ih (fun x hx => hws x (List.mem_cons_of_mem w hx)) acc
  unfold accumulate_minutes
  induction bhs with
  | nil => rfl
  | cons bh rest ih =>
    rw [List.foldl_cons,
      hmid _ (h bh (List.mem_cons_self bh rest)) (0, 0)]
    exact ih (fun x hx => h x (List.mem_cons_of_mem bh hx))

/-! ## Claim theorems: overlap and timeline reconstruction -/

/-- C5: for all four datetime inputs,
`overlap_minutes(a_start, a_end, b_start, b_end)` equals
`max(0, minutes of (min(a_end, b_end) - max(a_start, b_start)))`, and in
particular is never negative. -/
theorem overlap_minutes_contract (a_start a_end b_start b_end : ℤ) :
    overlap_minutes a_start a_end b_start b_end =
      max 0 (((min a_end b_end - max a_start b_start : ℤ) : ℚ) / 60) ∧
    0 ≤ overlap_minutes a_start a_end b_start b_end := by
  refine ⟨?_, overlap_minutes_nonneg _ _ _ _⟩
  rw [overlap_minutes_eq]
  rcases le_total (min a_end b_end - max a_start b_start) 0 with h | h
  · have hm : ((min a_end b_end - max a_start b_start : ℤ) : ℚ) / 60 ≤ 0 := by
      have := (div_le_div_iff_of_pos_right (show (0 : ℚ) < 60 by norm_num)).mpr
        (show ((min a_end b_end - max a_start b_start : ℤ) : ℚ) ≤ 0 by
          exact_mod_cast h)
      simpa using this
    rw [max_eq_left h, max_eq_left hm]
    norm_num
  · have hm : 0 ≤ ((min a_end b_end - max a_start b_start : ℤ) : ℚ) / 60 :=
      div_nonneg (by exact_mod_cast h) (by norm_num)
    rw [max_eq_right h, max_eq_right hm]

/-- C6: reconstructing the timeline from an empty observation sequence
returns exactly one interval spanning the whole window
`[window_start, window_end)` with status inactive. -/
theorem interpolate_status_empty (window_start window_end : ℤ) :
    interpolate_status [] window_start window_end =
      [(window_start, window_end, StoreStatusEnum.inactive)] := rfl

/-- C7: when every observation's timestamp is strictly before
`window_start`, the reconstruction consists exactly of the trailing
interval covering `[window_start, window_end)` with the status of the last
observation: the last known status before the window propagates forward. -/
theorem interpolate_status_all_before (records : List StoreStatus)
    (window_start window_end : ℤ) (hne : records ≠ [])
    (hbefore : ∀ r ∈ records, r.timestamp_utc < window_start)
    (hw : window_start ≤ window_end) :
    interpolate_status records window_start window_end =
      [(window_start, window_end, (records.getLast hne).status)] := by
  match records with
  | r :: rs =>
    have hpairs : interp_pairs (r :: rs) window_start window_end = [] := by
      unfold interp_pairs
      rw [List.filterMap_eq_nil_iff]
      intro p hp
      have h2 : p.2 ∈ r :: rs :=
        List.mem_of_mem_tail (List.of_mem_zip hp).2
      rw [if_pos (Or.inl (hbefore p.2 h2))]
    have hlastlt : ((r :: rs).getLast (List.cons_ne_nil r rs)).timestamp_utc
        < window_start := hbefore _ (List.getLast_mem _)
    show (if _ < window_end then _ ++ _ else _) = _
    rw [if_pos (lt_of_lt_of_le hlastlt hw), hpairs, List.nil_append,
      max_eq_right hlastlt.le]

/-- Witness for C7 at a concrete input: one observation at time `-10`,
window `[0, 10)`. -/
theorem interpolate_status_all_before_witness :
    interpolate_status [⟨"S1", -10, StoreStatusEnum.active⟩] 0 10 =
      [(0, 10, StoreStatusEnum.active)] :=
  interpolate_status_all_before [⟨"S1", -10, StoreStatusEnum.active⟩] 0 10
    (by decide) (by decide) (by decide)

/-! ## Claim theorems: the concrete end-to-end scenario

The spec's end-to-end scenario, with the epoch Monday 1970-01-05 as the
"Mon" of the scenario (all instants in seconds since the epoch):

* `now_utc` = Mon 18:00 = `410400`;
* rule: `day_of_week = 0` (Monday), 09:00:00–17:00:00 = `32400`–`61200`;
* observations: Mon 08:00 = `374400` active, Mon 12:00 = `388800`
  inactive, Mon 16:00 = `403200` active;
* timezone UTC, i.e. the identity localization function. -/

/-- C1: evaluating `process_one_store` on the spec's end-to-end scenario.
The code returns 0 for every field: the hour window matches the spec
(0 up / 0 down), but the day and week windows also return 0.0/0.0 instead
of the specified 3.0 uptime hours and 4.0 downtime hours, because the
day-cursor loop (`while day_cursor < now_utc`, stepping whole days from
`window_start`) never visits the calendar date containing `now_utc` when
the window length is an exact multiple of one day. -/
theorem process_one_store_scenario :
    process_one_store "S1" 410400 (fun t => t)
      [⟨"S1", 0, 32400, 61200⟩]
      [⟨"S1", 374400, StoreStatusEnum.active⟩,
       ⟨"S1", 388800, StoreStatusEnum.inactive⟩,
       ⟨"S1", 403200, StoreStatusEnum.active⟩] =
      ⟨"S1", 0, 0, 0, 0, 0, 0⟩ := by
  have h1 := accumulate_minutes_all_zero (fun t => t)
    [⟨"S1", 0, 32400, 61200⟩]
    (interpolate_status
      [⟨"S1", 374400, StoreStatusEnum.active⟩,
       ⟨"S1", 388800, StoreStatusEnum.inactive⟩,
       ⟨"S1", 403200, StoreStatusEnum.active⟩] (410400 - 3600) 410400)
    (410400 - 3600) 410400 (by decide)
  have h2 := accumulate_minutes_all_zero (fun t => t)
    [⟨"S1", 0, 32400, 61200⟩]
    (interpolate_status
      [⟨"S1", 374400, StoreStatusEnum.active⟩,
       ⟨"S1", 388800, StoreStatusEnum.inactive⟩,
       ⟨"S1", 403200, StoreStatusEnum.active⟩] (410400 - 86400) 410400)
    (410400 - 86400) 410400 (by decide)
  have h3 := accumulate_minutes_all_zero (fun t => t)
    [⟨"S1", 0, 32400, 61200⟩]
    (interpolate_status
      [⟨"S1", 374400, StoreStatusEnum.active⟩,
       ⟨"S1", 388800, StoreStatusEnum.inactive⟩,
       ⟨"S1", 403200, StoreStatusEnum.active⟩] (410400 - 604800) 410400)
    (410400 - 604800) 410400 (by decide)
  simp only [process_one_store, h1, h2, h3]
  simp [round2_zero]

/-- C2: from the spec scenario's "day" window `[Sun 18:00, Mon 18:00]`
(`[324000, 410400]`), the day-cursor loop visits only the single cursor
Sun 18:00 (= `324000`, on epoch date 3, a Sunday), never any instant on
epoch date 4 = `window_end.date()` (a Monday), so a Monday
09:00:00–17:00:00 rule materializes no business window at all — the
claimed inclusive date range `[window_start.date(), window_end.date()]`
is not what the code iterates over. -/
theorem rule_windows_misses_end_date :
    whileDays 324000 410400 = [324000] ∧
    (324000 : ℤ).fdiv 86400 = 3 ∧ (410400 : ℤ).fdiv 86400 = 4 ∧
    weekday 324000 = 6 ∧ weekday 410400 = 0 ∧
    rule_windows (fun t => t) ⟨"S1", 0, 32400, 61200⟩ 324000 410400 = [] := by
  decide

example : round2 (157 / 100 + 1 / 1000) = 157 / 100 := by
  norm_num [round2]

/-! ## Timeline reconstruction: ordering, bounds, coverage -/

lemma covers_nil (t : ℤ) : ¬ covers [] t := by simp [covers]

lemma covers_cons {iv : StatusInterval} {L : List StatusInterval} {t : ℤ} :
    covers (iv :: L) t ↔ (iv.1 ≤ t ∧ t < iv.2.1) ∨ covers L t := by
  simp [covers]

lemma covers_append {L1 L2 : List StatusInterval} {t : ℤ} :
    covers (L1 ++ L2) t ↔ covers L1 t ∨ covers L2 t := by
  unfold covers
  constructor
  · rintro ⟨iv, hiv, hin⟩
    rcases List.mem_append.mp hiv with h1 | h2
    · exact Or.inl ⟨iv, h1, hin⟩
    · exact Or.inr ⟨iv, h2, hin⟩
  · rintro (⟨iv, hiv, hin⟩ | ⟨iv, hiv, hin⟩)
    · exact ⟨iv, List.mem_append.mpr (Or.inl hiv), hin⟩
    · exact ⟨iv, List.mem_append.mpr (Or.inr hiv), hin⟩

lemma pairwise_le_getLast :
    ∀ (l : List StoreStatus) (hne : l ≠ []),
      List.Pairwise (fun a b => a.timestamp_utc ≤ b.timestamp_utc) l →
      ∀ x ∈ l, x.timestamp_utc ≤ (l.getLast hne).timestamp_utc := by
  intro l
  induction l with
  | nil => intro hne; exact absurd rfl hne
  | cons r rs ih =>
    intro hne h x hx
    cases rs with
    | nil =>
      simp only [List.mem_singleton] at hx
      subst hx
      simp [List.getLast]
    | cons r' rs' =>
      rw [List.getLast_cons (List.cons_ne_nil r' rs')]
      rcases List.mem_cons.mp hx with rfl | hx'
      · exact (List.pairwise_cons.mp h).1 _ (List.getLast_mem _)
      · exact ih (List.cons_ne_nil r' rs') h.of_cons x hx'

lemma interp_pairs_cons₂ (r r' : StoreStatus) (rs' : List StoreStatus)
    (start stop : ℤ) :
    interp_pairs (r :: r' :: rs') start stop =
      if r'.timestamp_utc < start ∨ stop < r.timestamp_utc then
        interp_pairs (r' :: rs') start stop
      else
        (max r.timestamp_utc start, min r'.timestamp_utc stop, r.status) ::
          interp_pairs (r' :: rs') start stop := by
  unfold interp_pairs
  simp only [List.tail_cons, List.zip_cons_cons, List.filterMap_cons]
  by_cases hc : r'.timestamp_utc < start ∨ stop < r.timestamp_utc
  · rw [if_pos hc]
    simp [hc]
  · rw [if_neg hc]
    simp [hc]

/-- Every interval emitted by the pair loop starts no earlier than the
first observation (and than `start`). -/
lemma interp_pairs_start_le {rs : List StoreStatus} {r : StoreStatus}
    {start stop : ℤ}
    (h : List.Pairwise (fun a b => a.timestamp_utc ≤ b.timestamp_utc)
      (r :: rs)) :
    ∀ iv ∈ interp_pairs (r :: rs) start stop, r.timestamp_utc ≤ iv.1 := by
  intro iv hiv
  unfold interp_pairs at hiv
  rcases List.mem_filterMap.mp hiv with ⟨p, hp, hfp⟩
  by_cases hc : p.2.timestamp_utc < start ∨ stop < p.1.timestamp_utc
  · rw [if_pos hc] at hfp
    cases hfp
  · rw [if_neg hc] at hfp
    have h1 : p.1 ∈ r :: rs := (List.of_mem_zip hp).1
    have hr : r.timestamp_utc ≤ p.1.timestamp_utc := by
      rcases List.mem_cons.mp h1 with rfl | h1'
      · exact le_refl _
      · exact (List.pairwise_cons.mp h).1 _ h1'
    have : iv.1 = max p.1.timestamp_utc start := by
      rw [← Option.some_inj.mp hfp]
    rw [this]
    exact le_trans hr (le_max_left _ _)

/-- Every interval emitted by the pair loop stops no later than the last
observation. -/
lemma interp_pairs_le_getLast {records : List StoreStatus}
    {start stop : ℤ} (hne : records ≠ [])
    (h : List.Pairwise (fun a b => a.timestamp_utc ≤ b.timestamp_utc)
      records) :
    ∀ iv ∈ interp_pairs records start stop,
      iv.2.1 ≤ (records.getLast hne).timestamp_utc := by
  intro iv hiv
  unfold interp_pairs at hiv
  rcases List.mem_filterMap.mp hiv with ⟨p, hp, hfp⟩
  by_cases hc : p.2.timestamp_utc < start ∨ stop < p.1.timestamp_utc
  · rw [if_pos hc] at hfp
    cases hfp
  · rw [if_neg hc] at hfp
    have h2 : p.2 ∈ records :=
      List.mem_of_mem_tail (List.of_mem_zip hp).2
    have : iv.2.1 = min p.2.timestamp_utc stop := by
      rw [← Option.some_inj.mp hfp]
    rw [this]
    exact le_trans (min_le_left _ _) (pairwise_le_getLast records hne h p.2 h2)

/-- The pair loop's intervals are ordered and non-overlapping. -/
lemma interp_pairs_pairwise {records : List StoreStatus} {start stop : ℤ}
    (h : List.Pairwise (fun a b => a.timestamp_utc ≤ b.timestamp_utc)
      records) :
    List.Pairwise (fun a b : StatusInterval => a.2.1 ≤ b.1)
      (interp_pairs records start stop) := by
  induction records with
  | nil => simp [interp_pairs]
  | cons r rs ih =>
    cases rs with
    | nil => simp [interp_pairs]
    | cons r' rs' =>
      rw [interp_pairs_cons₂]
      by_cases hc : r'.timestamp_utc < start ∨ stop < r.timestamp_utc
      · rw [if_pos hc]
        exact ih h.of_cons
      · rw [if_neg hc]
        refine List.pairwise_cons.mpr ⟨?_, ih h.of_cons⟩
        intro iv hiv
        exact le_trans (min_le_left _ _)
          (interp_pairs_start_le h.of_cons iv hiv)

/-- C3 helper: the union of the pair loop's intervals is exactly
`[max(first, start), min(last, stop))`. -/
lemma interp_pairs_covers {start stop : ℤ} :
    ∀ (rs : List StoreStatus) (r : StoreStatus),
      List.Pairwise (fun a b => a.timestamp_utc ≤ b.timestamp_utc)
        (r :: rs) →
      ∀ t : ℤ,
        (covers (interp_pairs (r :: rs) start stop) t ↔
          max r.timestamp_utc start ≤ t ∧
            t < min (((r :: rs).getLast
              (List.cons_ne_nil r rs)).timestamp_utc) stop) := by
  intro rs
  induction rs with
  | nil =>
    intro r _ t
    simp only [interp_pairs, List.tail_cons, List.zip_nil_right,
      List.filterMap_nil, List.getLast_singleton]
    constructor
    · intro hcov
      exact absurd hcov (covers_nil t)
    · intro ht
      rw [max_le_iff, lt_min_iff] at ht
      omega
  | cons r' rs' ih =>
    intro r hp t
    have hr : r.timestamp_utc ≤ r'.timestamp_utc :=
      (List.pairwise_cons.mp hp).1 r' (List.mem_cons_self r' rs')
    have hlast : r'.timestamp_utc ≤
        (((r' :: rs').getLast (List.cons_ne_nil r' rs'))).timestamp_utc :=
      pairwise_le_getLast _ (List.cons_ne_nil r' rs') hp.of_cons r'
        (List.mem_cons_self r' rs')
    rw [interp_pairs_cons₂,
      List.getLast_cons (List.cons_ne_nil r' rs')]
    by_cases hc : r'.timestamp_utc < start ∨ stop < r.timestamp_utc
    · rw [if_pos hc, ih r' hp.of_cons t]
      simp only [max_le_iff, lt_min_iff]
      omega
    · rw [if_neg hc]
      push_neg at hc
      rw [covers_cons, ih r' hp.of_cons t]
      simp only [max_le_iff, lt_min_iff]
      omega

/-- Consecutive observations in a sorted list have nondecreasing
timestamps. -/
lemma zip_tail_adjacent :
    ∀ (l : List StoreStatus),
      List.Pairwise (fun a b => a.timestamp_utc ≤ b.timestamp_utc) l →
      ∀ p ∈ l.zip l.tail, p.1.timestamp_utc ≤ p.2.timestamp_utc := by
  intro l
  induction l with
  | nil => intro _ p hp; cases hp
  | cons a as ih =>
    intro h p hp
    cases as with
    | nil => simp at hp
    | cons b bs =>
      rw [List.tail_cons, List.zip_cons_cons] at hp
      rcases List.mem_cons.mp hp with rfl | hp'
      · exact (List.pairwise_cons.mp h).1 b (List.mem_cons_self b bs)
      · exact ih h.of_cons p hp'

/-- Unfolding `interpolate_status` on a nonempty record list. -/
lemma interpolate_status_cons (r : StoreStatus) (rs : List StoreStatus)
    (start stop : ℤ) :
    interpolate_status (r :: rs) start stop =
      if ((r :: rs).getLast (List.cons_ne_nil r rs)).timestamp_utc < stop
      then
        interp_pairs (r :: rs) start stop ++
          [(max ((r :: rs).getLast
              (List.cons_ne_nil r rs)).timestamp_utc start, stop,
            ((r :: rs).getLast (List.cons_ne_nil r rs)).status)]
      else interp_pairs (r :: rs) start stop := rfl

lemma interp_pairs_bounds {records : List StoreStatus} {start stop : ℤ}
    (h : List.Pairwise (fun a b => a.timestamp_utc ≤ b.timestamp_utc)
      records)
    (hws : start ≤ stop) :
    ∀ iv ∈ interp_pairs records start stop,
      start ≤ iv.1 ∧ iv.1 ≤ iv.2.1 ∧ iv.2.1 ≤ stop := by
  intro iv hiv
  obtain ⟨p, hp, hfp⟩ := List.mem_filterMap.mp hiv
  by_cases hc : p.2.timestamp_utc < start ∨ stop < p.1.timestamp_utc
  · rw [if_pos hc] at hfp
    cases hfp
  · rw [if_neg hc] at hfp
    push_neg at hc
    have hadj : p.1.timestamp_utc ≤ p.2.timestamp_utc :=
      zip_tail_adjacent records h p hp
    rw [← Option.some_inj.mp hfp]
    refine ⟨le_max_right _ _, ?_, min_le_right _ _⟩
    exact max_le (le_min hadj hc.2) (le_min hc.1 hws)

/-- The reconstructed intervals all lie inside the window and are
nondegenerate. -/
lemma interpolate_status_bounds {records : List StoreStatus}
    {start stop : ℤ}
    (h : List.Pairwise (fun a b => a.timestamp_utc ≤ b.timestamp_utc)
      records)
    (hws : start ≤ stop) :
    ∀ iv ∈ interpolate_status records start stop,
      start ≤ iv.1 ∧ iv.1 ≤ iv.2.1 ∧ iv.2.1 ≤ stop := by
  intro iv hiv
  match records with
  | [] =>
    simp only [interpolate_status, List.mem_singleton] at hiv
    subst hiv
    exact ⟨le_refl _, hws, le_refl _⟩
  | r :: rs =>
    rw [interpolate_status_cons] at hiv
    by_cases hl :
        ((r :: rs).getLast (List.cons_ne_nil r rs)).timestamp_utc < stop
    · rw [if_pos hl] at hiv
      rcases List.mem_append.mp hiv with hiv' | hiv'
      · exact interp_pairs_bounds h hws iv hiv'
      · simp only [List.mem_singleton] at hiv'
        subst hiv'
        exact ⟨le_max_right _ _, max_le hl.le hws, le_refl _⟩
    · rw [if_neg hl] at hiv
      exact interp_pairs_bounds h hws iv hiv

/-- The reconstructed intervals are ordered and non-overlapping. -/
lemma interpolate_status_pairwise {records : List StoreStatus}
    {start stop : ℤ}
    (h : List.Pairwise (fun a b => a.timestamp_utc ≤ b.timestamp_utc)
      records) :
    List.Pairwise (fun a b : StatusInterval => a.2.1 ≤ b.1)
      (interpolate_status records start stop) := by
  match records with
  | [] => simp [interpolate_status]
  | r :: rs =>
    rw [interpolate_status_cons]
    by_cases hl :
        ((r :: rs).getLast (List.cons_ne_nil r rs)).timestamp_utc < stop
    · rw [if_pos hl]
      refine (List.pairwise_append).mpr
        ⟨interp_pairs_pairwise h, List.pairwise_singleton _ _, ?_⟩
      intro a ha b hb
      simp only [List.mem_singleton] at hb
      subst hb
      exact le_trans
        (interp_pairs_le_getLast (List.cons_ne_nil r rs) h a ha)
        (le_max_left _ _)
    · rw [if_neg hl]
      exact interp_pairs_pairwise h

/-! ## Accumulated totals: fold-to-sum characterization and bound -/

lemma overlap_minutes_olapZ (s1 e1 s2 e2 : ℤ) :
    overlap_minutes s1 e1 s2 e2 = ((olapZ s1 e1 s2 e2 : ℤ) : ℚ) / 60 :=
  overlap_minutes_eq s1 e1 s2 e2

lemma olapZ_nonneg (s1 e1 s2 e2 : ℤ) : 0 ≤ olapZ s1 e1 s2 e2 :=
  le_max_left 0 _

/-- Splitting `[lo, hi]` at an interior point only shrinks the overlap
with a fixed window. -/
lemma olapZ_split {a b lo hi : ℤ} (ws we : ℤ) (h1 : lo ≤ a) (h2 : a ≤ b)
    (h3 : b ≤ hi) :
    olapZ a b ws we + olapZ b hi ws we ≤ olapZ lo hi ws we := by
  unfold olapZ
  omega

/-- The overlaps of an ordered, non-overlapping family of subintervals of
`[lo, hi]` with a fixed window sum to at most the overlap of `[lo, hi]`
itself. -/
lemma sum_olapZ_le {L : List StatusInterval} {lo hi : ℤ} (ws we : ℤ)
    (hpw : List.Pairwise (fun a b : StatusInterval => a.2.1 ≤ b.1) L)
    (hb : ∀ iv ∈ L, lo ≤ iv.1 ∧ iv.1 ≤ iv.2.1 ∧ iv.2.1 ≤ hi) :
    (L.map (fun iv => olapZ iv.1 iv.2.1 ws we)).sum ≤ olapZ lo hi ws we := by
  induction L generalizing lo with
  | nil => exact olapZ_nonneg lo hi ws we
  | cons iv rest ih =>
    rw [List.map_cons, List.sum_cons]
    obtain ⟨hlo, hab, hhi⟩ := hb iv (List.mem_cons_self iv rest)
    have hrest : (rest.map (fun iv => olapZ iv.1 iv.2.1 ws we)).sum ≤
        olapZ iv.2.1 hi ws we := by
      refine ih hpw.of_cons ?_
      intro x hx
      exact ⟨(List.pairwise_cons.mp hpw).1 x hx, (hb x
        (List.mem_cons_of_mem iv hx)).2.1,
        (hb x (List.mem_cons_of_mem iv hx)).2.2⟩
    calc olapZ iv.1 iv.2.1 ws we +
          (rest.map (fun iv => olapZ iv.1 iv.2.1 ws we)).sum
        ≤ olapZ iv.1 iv.2.1 ws we + olapZ iv.2.1 hi ws we :=
          add_le_add_left hrest _
      _ ≤ olapZ lo hi ws we := olapZ_split ws we hlo hab hhi

lemma sum_overlap_cast {L : List StatusInterval} {ws we : ℤ} :
    (L.map (fun iv => overlap_minutes iv.1 iv.2.1 ws we)).sum =
      (((L.map (fun iv => olapZ iv.1 iv.2.1 ws we)).sum : ℤ) : ℚ) / 60 := by
  induction L with
  | nil => norm_num
  | cons iv rest ih =>
    rw [List.map_cons, List.sum_cons, List.map_cons, List.sum_cons, ih,
      overlap_minutes_olapZ]
    push_cast
    ring

lemma add_overlap_total (w : ℤ × ℤ) (acc : ℚ × ℚ) (iv : StatusInterval) :
    (add_overlap w acc iv).1 + (add_overlap w acc iv).2 =
      acc.1 + acc.2 + overlap_minutes iv.1 iv.2.1 w.1 w.2 := by
  unfold add_overlap
  by_cases h : 0 < overlap_minutes iv.1 iv.2.1 w.1 w.2
  · rw [if_pos h]
    by_cases hst : iv.2.2 = StoreStatusEnum.active
    · rw [if_pos hst]
      ring
    · rw [if_neg hst]
      ring
  · rw [if_neg h,
      le_antisymm (not_lt.mp h) (overlap_minutes_nonneg _ _ _ _)]
    ring

lemma foldl_add_overlap_total (w : ℤ × ℤ) (L : List StatusInterval) :
    ∀ acc : ℚ × ℚ,
      (L.foldl (add_overlap w) acc).1 + (L.foldl (add_overlap w) acc).2 =
        acc.1 + acc.2 +
          (L.map (fun iv => overlap_minutes iv.1 iv.2.1 w.1 w.2)).sum := by
  induction L with
  | nil => intro acc; simp
  | cons iv rest ih =>
    intro acc
    rw [List.foldl_cons, ih (add_overlap w acc iv), add_overlap_total,
      List.map_cons, List.sum_cons]
    ring

lemma foldl_windows_total (L : List StatusInterval) (ws : List (ℤ × ℤ)) :
    ∀ acc : ℚ × ℚ,
      ((ws.foldl (fun acc w => L.foldl (add_overlap w) acc) acc).1 +
        (ws.foldl (fun acc w => L.foldl (add_overlap w) acc) acc).2) =
        acc.1 + acc.2 +
          (ws.map (fun w =>
            (L.map (fun iv =>
              overlap_minutes iv.1 iv.2.1 w.1 w.2)).sum)).sum := by
  induction ws with
  | nil => intro acc; simp
  | cons w rest ih =>
    intro acc
    rw [List.foldl_cons, ih (L.foldl (add_overlap w) acc),
      foldl_add_overlap_total, List.map_cons, List.sum_cons]
    ring

/-- The accumulated `(total_up, total_down)` sum to the triple sum of all
pairwise overlaps between status intervals and business windows. -/
lemma accumulate_minutes_total (tz : ℤ → ℤ)
    (business_hours : List BusinessHours) (L : List StatusInterval)
    (start now_utc : ℤ) :
    (accumulate_minutes tz business_hours L start now_utc).1 +
      (accumulate_minutes tz business_hours L start now_utc).2 =
      (business_hours.map (fun bh =>
        ((rule_windows tz bh start now_utc).map (fun w =>
          (L.map (fun iv =>
            overlap_minutes iv.1 iv.2.1 w.1 w.2)).sum)).sum)).sum := by
  unfold accumulate_minutes
  have haux : ∀ (bhs : List BusinessHours) (acc : ℚ × ℚ),
      ((bhs.foldl (fun acc bh =>
        (rule_windows tz bh start now_utc).foldl (fun acc w =>
          L.foldl (add_overlap w) acc) acc) acc).1 +
        (bhs.foldl (fun acc bh =>
          (rule_windows tz bh start now_utc).foldl (fun acc w =>
            L.foldl (add_overlap w) acc) acc) acc).2) =
        acc.1 + acc.2 +
          (bhs.map (fun bh =>
            ((rule_windows tz bh start now_utc).map (fun w =>
              (L.map (fun iv =>
                overlap_minutes iv.1 iv.2.1 w.1 w.2)).sum)).sum)).sum := by
    intro bhs
    induction bhs with
    | nil => intro acc; simp
    | cons bh rest ih =>
      intro acc
      rw [List.foldl_cons, ih, foldl_windows_total, List.map_cons,
        List.sum_cons]
      ring
  rw [haux]
  norm_num

/-! ## Claim theorems: coverage of the reconstructed timeline -/

/-- C3 counterexample: the single observation at `t = 5` lies strictly
inside the window `[0, 10)`; the input satisfies all of the claim's
hypotheses (non-empty, timestamp-ordered, `window_start < window_end`),
yet the reconstruction is `[(5, 10, active)]` and the window instant `0`
is covered by no interval, so the union of the reconstructed intervals is
a proper subset of the span. -/
theorem interpolate_status_gap_counterexample :
    ([⟨"S1", 5, StoreStatusEnum.active⟩] : List StoreStatus) ≠ [] ∧
    List.Pairwise (fun a b : StoreStatus =>
        a.timestamp_utc ≤ b.timestamp_utc)
      [⟨"S1", 5, StoreStatusEnum.active⟩] ∧
    (0 : ℤ) < 10 ∧
    interpolate_status [⟨"S1", 5, StoreStatusEnum.active⟩] 0 10 =
      [(5, 10, StoreStatusEnum.active)] ∧
    ¬ (∀ t : ℤ, (0 ≤ t ∧ t < 10) ↔
        covers (interpolate_status
          [⟨"S1", 5, StoreStatusEnum.active⟩] 0 10) t) := by
  refine ⟨by decide, List.pairwise_singleton _ _, by decide, by decide,
    fun hall => absurd ((hall 0).mp (by norm_num)) (by decide)⟩

/-- C3 (amended): for every non-empty, timestamp-ordered observation
sequence **whose first observation is at or before `window_start`**, and
every window with `window_start < window_end`, the reconstructed
intervals are non-overlapping, ordered, and their union is exactly
`[window_start, window_end)`.  (Without the first-observation hypothesis
the code leaves the gap `[window_start, first_timestamp)` uncovered, see
the counterexample.) -/
theorem interpolate_status_coverage (records : List StoreStatus)
    (window_start window_end : ℤ) (hne : records ≠ [])
    (hsort : List.Pairwise (fun a b : StoreStatus =>
      a.timestamp_utc ≤ b.timestamp_utc) records)
    (hfirst : (records.head hne).timestamp_utc ≤ window_start)
    (_hw : window_start < window_end) :
    List.Pairwise (fun a b : StatusInterval => a.2.1 ≤ b.1)
      (interpolate_status records window_start window_end) ∧
    ∀ t : ℤ, (window_start ≤ t ∧ t < window_end) ↔
      covers (interpolate_status records window_start window_end) t := by
  refine ⟨interpolate_status_pairwise hsort, ?_⟩
  intro t
  match records with
  | r :: rs =>
    have hfirst' : r.timestamp_utc ≤ window_start := hfirst
    have hrlast : r.timestamp_utc ≤
        ((r :: rs).getLast (List.cons_ne_nil r rs)).timestamp_utc :=
      pairwise_le_getLast _ (List.cons_ne_nil r rs) hsort r
        (List.mem_cons_self r rs)
    have hpairs :=
      @interp_pairs_covers window_start window_end rs r hsort t
    rw [interpolate_status_cons]
    by_cases hl : ((r :: rs).getLast
        (List.cons_ne_nil r rs)).timestamp_utc < window_end
    · rw [if_pos hl, covers_append, covers_cons, hpairs]
      simp only [covers_nil, or_false, max_le_iff, lt_min_iff]
      omega
    · rw [if_neg hl, hpairs]
      simp only [max_le_iff, lt_min_iff]
      omega

/-- Witness for C3 (amended) at a concrete input: one observation at
time `0`, window `[0, 10)`. -/
theorem interpolate_status_coverage_witness :
    List.Pairwise (fun a b : StatusInterval => a.2.1 ≤ b.1)
      (interpolate_status [⟨"S1", 0, StoreStatusEnum.active⟩] 0 10) ∧
    ∀ t : ℤ, (0 ≤ t ∧ t < 10) ↔
      covers (interpolate_status
        [⟨"S1", 0, StoreStatusEnum.active⟩] 0 10) t :=
  interpolate_status_coverage [⟨"S1", 0, StoreStatusEnum.active⟩] 0 10
    (by decide) (List.pairwise_singleton _ _) (by decide) (by decide)

/-! ## Claim theorems: accumulation bound and degenerate rules -/

/-- C8: for every store configuration and trailing window, the
accumulated `total_up + total_down` minutes never exceed the sum of the
durations of the materialized business windows clipped to that window,
and each individual overlap contribution is nonnegative. -/
theorem accumulate_minutes_bounded (tz : ℤ → ℤ)
    (business_hours : List BusinessHours)
    (status_records : List StoreStatus) (window_start now_utc : ℤ)
    (hsort : List.Pairwise (fun a b : StoreStatus =>
      a.timestamp_utc ≤ b.timestamp_utc) status_records)
    (hw : window_start ≤ now_utc) :
    ((accumulate_minutes tz business_hours
        (interpolate_status status_records window_start now_utc)
        window_start now_utc).1 +
      (accumulate_minutes tz business_hours
        (interpolate_status status_records window_start now_utc)
        window_start now_utc).2 ≤
      (business_hours.map (fun bh =>
        ((rule_windows tz bh window_start now_utc).map (fun w =>
          overlap_minutes window_start now_utc w.1 w.2)).sum)).sum) ∧
    ∀ a b c d : ℤ, 0 ≤ overlap_minutes a b c d := by
  refine ⟨?_, fun a b c d => overlap_minutes_nonneg a b c d⟩
  rw [accumulate_minutes_total]
  refine List.sum_le_sum ?_
  intro bh _
  refine List.sum_le_sum ?_
  intro w _
  rw [sum_overlap_cast, overlap_minutes_olapZ]
  refine (div_le_div_iff_of_pos_right (show (0 : ℚ) < 60 by norm_num)).mpr
    ?_
  refine Int.cast_le.mpr ?_
  exact sum_olapZ_le w.1 w.2 (interpolate_status_pairwise hsort)
    (interpolate_status_bounds hsort hw)

/-- Witness for C8 at the spec scenario's week window. -/
theorem accumulate_minutes_bounded_witness :
    ((accumulate_minutes (fun t => t) [⟨"S1", 0, 32400, 61200⟩]
        (interpolate_status
          [⟨"S1", 374400, StoreStatusEnum.active⟩,
           ⟨"S1", 388800, StoreStatusEnum.inactive⟩,
           ⟨"S1", 403200, StoreStatusEnum.active⟩] (-194400) 410400)
        (-194400) 410400).1 +
      (accumulate_minutes (fun t => t) [⟨"S1", 0, 32400, 61200⟩]
        (interpolate_status
          [⟨"S1", 374400, StoreStatusEnum.active⟩,
           ⟨"S1", 388800, StoreStatusEnum.inactive⟩,
           ⟨"S1", 403200, StoreStatusEnum.active⟩] (-194400) 410400)
        (-194400) 410400).2 ≤
      (([⟨"S1", 0, 32400, 61200⟩] : List BusinessHours).map (fun bh =>
        ((rule_windows (fun t => t) bh (-194400) 410400).map (fun w =>
          overlap_minutes (-194400) 410400 w.1 w.2)).sum)).sum) ∧
    ∀ a b c d : ℤ, 0 ≤ overlap_minutes a b c d :=
  accumulate_minutes_bounded (fun t => t) [⟨"S1", 0, 32400, 61200⟩]
    [⟨"S1", 374400, StoreStatusEnum.active⟩,
     ⟨"S1", 388800, StoreStatusEnum.inactive⟩,
     ⟨"S1", 403200, StoreStatusEnum.active⟩] (-194400) 410400
    (by simp [List.pairwise_cons]) (by decide)

/-- A degenerate business window (`end ≤ start`) never overlaps anything. -/
lemma overlap_minutes_degenerate (s1 e1 : ℤ) {ws we : ℤ} (h : we ≤ ws) :
    overlap_minutes s1 e1 ws we = 0 := by
  unfold overlap_minutes
  rw [if_pos (le_trans (min_le_right e1 we)
    (le_trans h (le_max_right s1 ws)))]

/-- C9: a rule whose local end time is numerically earlier than its local
start time is materialized with both endpoints on the same concrete date
(never wrapped past midnight), so (for a monotone localization function,
e.g. any fixed-offset timezone) every materialized window is degenerate
(`utc_end ≤ utc_start`) and the rule contributes zero uptime and zero
downtime: a store whose rules are all degenerate reports all-zero
minutes and hours. -/
theorem degenerate_rules_zero (store_id : String) (now_utc : ℤ)
    (tz : ℤ → ℤ) (business_hours : List BusinessHours)
    (status_records : List StoreStatus) (hmono : Monotone tz)
    (hdeg : ∀ bh ∈ business_hours,
      bh.end_time_local < bh.start_time_local) :
    process_one_store store_id now_utc tz business_hours status_records =
      ⟨store_id, 0, 0, 0, 0, 0, 0⟩ ∧
    ∀ bh ∈ business_hours, ∀ start : ℤ,
      ∀ w ∈ rule_windows tz bh start now_utc, w.2 ≤ w.1 := by
  have hwin : ∀ bh ∈ business_hours, ∀ start : ℤ,
      ∀ w ∈ rule_windows tz bh start now_utc, w.2 ≤ w.1 := by
    intro bh hbh start w hw
    obtain ⟨c, _, hfc⟩ := List.mem_filterMap.mp hw
    by_cases hwd : weekday c = (bh.dayOfWeek : ℤ)
    · rw [if_pos hwd] at hfc
      rw [← Option.some_inj.mp hfc]
      refine hmono (add_le_add_left ?_ _)
      exact_mod_cast (hdeg bh hbh).le
    · rw [if_neg hwd] at hfc
      cases hfc
  refine ⟨?_, hwin⟩
  have hz : ∀ start : ℤ,
      accumulate_minutes tz business_hours
        (interpolate_status status_records start now_utc) start now_utc =
        (0, 0) := by
    intro start
    refine accumulate_minutes_all_zero tz business_hours _ start now_utc ?_
    intro bh hbh w hw iv _
    exact overlap_minutes_degenerate iv.1 iv.2.1 (hwin bh hbh start w hw)
  simp only [process_one_store, hz]
  simp [round2_zero]

/-- Witness for C9: a single Monday rule 17:00:00–09:00:00 (end before
start) in UTC, with one observation, reports all zeros. -/
theorem degenerate_rules_zero_witness :
    (process_one_store "S1" 410400 (fun t => t)
        [⟨"S1", 0, 61200, 32400⟩] [⟨"S1", 374400, StoreStatusEnum.active⟩] =
      ⟨"S1", 0, 0, 0, 0, 0, 0⟩) ∧
    ∀ bh ∈ ([⟨"S1", 0, 61200, 32400⟩] : List BusinessHours), ∀ start : ℤ,
      ∀ w ∈ rule_windows (fun t => t) bh start 410400, w.2 ≤ w.1 :=
  degenerate_rules_zero "S1" 410400 (fun t => t)
    [⟨"S1", 0, 61200, 32400⟩] [⟨"S1", 374400, StoreStatusEnum.active⟩]
    (fun _ _ h => h) (by decide)

/-- Reading the timezone dictionary at one store only sees the documents
of that store. -/
lemma tz_fold_apply :
    ∀ (docs : List StoreDoc) (m : String → String) (s : String),
      (docs.foldl
        (fun tz_map doc =>
          match doc.timezone_str with
          | some t => Function.update tz_map doc.store_id t
          | none => tz_map) m) s =
        (docs.filter (fun d => decide (d.store_id = s))).foldl
          (fun acc d =>
            match d.timezone_str with
            | some t => t
            | none => acc) (m s) := by
  intro docs
  induction docs with
  | nil => intro m s; rfl
  | cons d rest ih =>
    intro m s
    cases hd : d.timezone_str with
    | none =>
      by_cases hid : d.store_id = s
      · rw [List.filter_cons_of_pos (by simp [hid])]
        simp only [List.foldl_cons, hd]
        exact ih m s
      · rw [List.filter_cons_of_neg (by simp [hid])]
        simp only [List.foldl_cons, hd]
        exact ih m s
    | some t =>
      by_cases hid : d.store_id = s
      · rw [List.filter_cons_of_pos (by simp [hid])]
        simp only [List.foldl_cons, hd]
        rw [ih, Function.update_apply, if_pos hid.symm]
      · rw [List.filter_cons_of_neg (by simp [hid])]
        simp only [List.foldl_cons, hd]
        rw [ih, Function.update_apply, if_neg (fun h => hid h.symm)]

/-- Reading the business-hours dictionary at one store only sees the rule
documents of that store, appended in cursor order. -/
lemma bh_fold_apply :
    ∀ (rules : List BusinessHours) (m : String → List BusinessHours)
      (s : String),
      (rules.foldl
        (fun (m : String → List BusinessHours) r =>
          Function.update m r.store_id (m r.store_id ++ [r])) m) s =
        m s ++ rules.filter (fun r => decide (r.store_id = s)) := by
  intro rules
  induction rules with
  | nil => intro m s; simp
  | cons r rest ih =>
    intro m s
    by_cases hid : r.store_id = s
    · rw [List.filter_cons_of_pos (by simp [hid])]
      simp only [List.foldl_cons]
      rw [ih, Function.update_apply, if_pos hid.symm, hid,
        List.append_assoc, List.singleton_append]
    · rw [List.filter_cons_of_neg (by simp [hid])]
      simp only [List.foldl_cons]
      rw [ih, Function.update_apply, if_neg (fun h => hid h.symm)]

lemma filter_batch_eq {α : Type} (key : α → String) (l : List α)
    (batch : List String) (s : String) (hs : s ∈ batch) :
    (l.filter (fun d => decide (key d ∈ batch))).filter
        (fun d => decide (key d = s)) =
      l.filter (fun d => decide (key d = s)) := by
  rw [List.filter_filter]
  refine List.filter_congr ?_
  intro d _
  by_cases hid : key d = s
  · simp [hid, hs]
  · simp [hid]

lemma get_batch_timezones_eq (db : DB) (batch : List String) (s : String)
    (hs : s ∈ batch) :
    get_batch_timezones db batch s = store_timezone db s := by
  unfold get_batch_timezones store_timezone
  rw [tz_fold_apply]
  rw [filter_batch_eq (fun d : StoreDoc => d.store_id) db.stores batch s hs]

lemma get_batch_business_hours_eq (db : DB) (batch : List String)
    (s : String) (hs : s ∈ batch) :
    get_batch_business_hours db batch s = store_rules db s := by
  simp only [get_batch_business_hours, store_rules]
  rw [bh_fold_apply, List.nil_append,
    filter_batch_eq (fun r : BusinessHours => r.store_id)
      db.business_hours batch s hs]
  simp [hs]

lemma get_batch_status_records_eq (db : DB) (batch : List String)
    (start stop : ℤ) (s : String) (hs : s ∈ batch) :
    get_batch_status_records db batch start stop s =
      store_observations db start stop s := by
  unfold get_batch_status_records store_observations
  rw [if_pos hs]

/-- One batch's results only depend on each store's own documents. -/
lemma process_batch_eq (tzInterp : String → ℤ → ℤ) (db : DB)
    (now_utc : ℤ) (batch : List String) :
    process_batch tzInterp db now_utc batch =
      batch.map (store_record tzInterp db now_utc) := by
  simp only [process_batch]
  refine List.map_congr_left ?_
  intro s hs
  rw [get_batch_timezones_eq db batch s hs,
    get_batch_business_hours_eq db batch s hs,
    get_batch_status_records_eq db batch (now_utc - 604800) now_utc s hs]
  rfl

/-- Concatenating the consecutive `⌈n / b⌉` slices of size `b` gives back
the whole list (mapped by `f`). -/
lemma flatMap_batches {α β : Type} (f : α → β) (b : ℕ) (hb : 0 < b) :
    ∀ (m : ℕ) (l : List α), m = (l.length + b - 1) / b →
      (List.range m).flatMap (fun k => ((l.drop (k * b)).take b).map f) =
        l.map f := by
  intro m
  induction m with
  | zero =>
    intro l hm
    have hlen : l.length = 0 := by
      by_contra hl
      have h1 : 1 ≤ (l.length + b - 1) / b :=
        (Nat.one_le_div_iff hb).mpr (by omega)
      omega
    rw [List.length_eq_zero.mp hlen]
    simp
  | succ m ih =>
    intro l hm
    have hlen : 1 ≤ l.length := by
      by_contra hl
      push_neg at hl
      have h0 : l.length = 0 := by omega
      rw [h0, Nat.div_eq_of_lt (by omega : 0 + b - 1 < b)] at hm
      omega
    have hm' : m = ((l.drop b).length + b - 1) / b := by
      rw [List.length_drop]
      rcases le_or_lt l.length b with hlb | hlb
      · have h1 : l.length - b = 0 := by omega
        rw [h1, Nat.div_eq_of_lt (by omega : 0 + b - 1 < b)]
        have h4 : (l.length + b - 1) / b < 2 :=
          Nat.div_lt_of_lt_mul (by omega)
        omega
      · have h2 : l.length + b - 1 = (l.length - 1) + b := by omega
        rw [h2, Nat.add_div_right _ hb] at hm
        have h3 : l.length - 1 = (l.length - 1 - b) + b := by omega
        rw [h3, Nat.add_div_right _ hb] at hm
        have h1 : l.length - b + b - 1 = (l.length - 1 - b) + b := by
          omega
        rw [h1, Nat.add_div_right _ hb]
        omega
    rw [List.range_succ_eq_map, List.flatMap_cons, List.flatMap_map]
    have hbody :
        ((List.range m).flatMap fun a =>
          ((l.drop (a.succ * b)).take b).map f) =
        (List.range m).flatMap (fun k =>
          (((l.drop b).drop (k * b)).take b).map f) := by
      congr 1
      funext k
      rw [show k.succ * b = b + k * b from by
          rw [Nat.succ_mul, Nat.add_comm],
        ← List.drop_drop]
    rw [hbody, ih (l.drop b) hm', Nat.zero_mul, List.drop_zero,
      ← List.map_append, List.take_append_drop]

/-- The full result list is the per-store record of every store, in
population order, whatever the (positive) batch size. -/
lemma process_results_eq (tzInterp : String → ℤ → ℤ) (db : DB)
    (now_utc : ℤ) (b : ℕ) (hb : 0 < b) :
    (List.range
        (((db.stores.map (fun d => d.store_id)).length + b - 1) / b)).flatMap
      (fun batch_num => process_batch tzInterp db now_utc
        (((db.stores.map (fun d => d.store_id)).drop (batch_num * b)).take
          b)) =
      (db.stores.map (fun d => d.store_id)).map
        (store_record tzInterp db now_utc) := by
  have hbody :
      (List.range
          (((db.stores.map (fun d => d.store_id)).length + b - 1) /
            b)).flatMap
        (fun batch_num => process_batch tzInterp db now_utc
          (((db.stores.map (fun d => d.store_id)).drop
            (batch_num * b)).take b)) =
      (List.range
          (((db.stores.map (fun d => d.store_id)).length + b - 1) /
            b)).flatMap
        (fun batch_num =>
          (((db.stores.map (fun d => d.store_id)).drop
            (batch_num * b)).take b).map
            (store_record tzInterp db now_utc)) := by
    congr 1
    funext batch_num
    exact process_batch_eq tzInterp db now_utc _
  rw [hbody]
  exact flatMap_batches (store_record tzInterp db now_utc) b hb _ _ rfl

/-! ## Claim theorems: batch invariance and the empty population -/

/-- C4: splitting the same store population into batches of any positive
sizes produces identical results: each store's availability record is
computed from that store's own fetched data only, so batch size never
influences any store's record (the full result lists are equal). -/
theorem process_stores_in_batches_invariant (tzInterp : String → ℤ → ℤ)
    (db : DB) (now_utc : ℤ) (b1 b2 : ℕ) (h1 : 0 < b1) (h2 : 0 < b2) :
    process_stores_in_batches tzInterp db now_utc b1 =
      process_stores_in_batches tzInterp db now_utc b2 := by
  simp only [process_stores_in_batches]
  rw [process_results_eq tzInterp db now_utc b1 h1,
    process_results_eq tzInterp db now_utc b2 h2]

/-- Witness for C4: a two-store population processed with batch sizes 1
and 50. -/
theorem process_stores_in_batches_invariant_witness :
    process_stores_in_batches (fun _ t => t)
        ⟨[⟨"A", some "UTC"⟩, ⟨"B", none⟩], [],
          [⟨"A", 100, StoreStatusEnum.active⟩]⟩ 410400 1 =
      process_stores_in_batches (fun _ t => t)
        ⟨[⟨"A", some "UTC"⟩, ⟨"B", none⟩], [],
          [⟨"A", 100, StoreStatusEnum.active⟩]⟩ 410400 50 :=
  process_stores_in_batches_invariant (fun _ t => t)
    ⟨[⟨"A", some "UTC"⟩, ⟨"B", none⟩], [],
      [⟨"A", 100, StoreStatusEnum.active⟩]⟩ 410400 1 50
    (by decide) (by decide)

/-- C10: with an empty store population `process_stores_in_batches` does
not return an empty result sequence: the batch loop produces no result
and the average-time computation divides by `len(results) = 0`, raising
`ZeroDivisionError`. -/
theorem process_stores_in_batches_empty (tzInterp : String → ℤ → ℤ)
    (db : DB) (now_utc : ℤ) (batch_size : ℕ) (h : db.stores = []) :
    process_stores_in_batches tzInterp db now_utc batch_size =
      Except.error "ZeroDivisionError" := by
  simp only [process_stores_in_batches, h]
  have hnb : (([] : List StoreDoc).map (fun d => d.store_id)).length = 0 :=
    rfl
  rw [hnb]
  have h0 : (0 + batch_size - 1) / batch_size = 0 := by
    rcases Nat.eq_zero_or_pos batch_size with hb | hb
    · simp [hb]
    · exact Nat.div_eq_of_lt (by omega)
  rw [h0]
  rfl

/-- Witness for C10: the empty database with the default batch size 250. -/
theorem process_stores_in_batches_empty_witness :
    process_stores_in_batches (fun _ t => t) ⟨[], [], []⟩ 410400 250 =
      Except.error "ZeroDivisionError" :=
  process_stores_in_batches_empty (fun _ t => t) ⟨[], [], []⟩ 410400 250
    rfl
